import Mathlib

/-!
Verification development for the multi-table upsert engine of quick-stream
(src/src/upsert/multi_table_upsert.rs).

The engine's pure control logic is shallowly embedded: worker handles, the
tiered sender map, the dispatcher (handle_n), the rebalancer
(re_balance_sender / rebalance_senders), baseline construction (init_sender /
init_senders), the lag window and process_received.  Runtime facts that live
outside the engine (a channel's free capacity, whether a sender is closed,
whether a task has finished) are supplied per event by an adversarial
environment, mirroring what tokio reports at the corresponding call sites.
Rust usize / i64 arithmetic is modelled as Nat / Int (no overflow occurs in
the modelled ranges); the f64 percentage computation of handle_n is modelled
exactly over ℚ.
-/

namespace QuickStream

/-- Engine configuration (struct MultiTableUpsertQuickStream, the fields the
modelled control logic reads).  connection_creation_threshold is an f64
percentage in the source; it is modelled as a rational. -/
structure Cfg where
  maxConCount : Nat
  bufferSize : Nat
  singleDigits : Nat
  tens : Nat
  hundreds : Nat
  maxRecordsPerCycleBatch : Nat
  introducedLagCycles : Nat
  connectionCreationThreshold : ℚ

/-- A worker handle (struct UpsertData) minus its live channel and join
handle, which are modelled by per-event observations (Obs).  queryArity
records the argument n that was passed to queries.get(&n) when the worker's
process_n task was spawned: the worker prepares exactly the batch_size = n
query templates of the registry (process_n, lines 274-283). -/
structure UpsertData where
  id : Int
  type_ : Nat
  queryArity : Nat
deriving DecidableEq, Repr

/-- Observation of one worker handle's runtime state at one instant:
tx.is_closed(), join_handler.is_finished(), and tx.capacity() (the number of
free slots of the worker's channel). -/
structure Obs where
  isClosed : Bool
  isFinished : Bool
  capacity : Nat
deriving DecidableEq, Repr

/-- Default observation used when the environment supplies fewer
observations than there are workers: channel open, task running, no free
slots. -/
def defaultObs : Obs := ⟨false, false, 0⟩

/-- Pair each worker of a tier list with the free capacity its channel
reports at this instant (positional; missing values default to 0). -/
def zipCaps : List UpsertData → List Nat → List (UpsertData × Nat)
  | [], _ => []
  | w :: ws, [] => (w, 0) :: zipCaps ws []
  | w :: ws, c :: cs => (w, c) :: zipCaps ws cs

/-- Pair each worker of a tier list with its runtime observation
(positional; missing values default to defaultObs). -/
def zipObs : List UpsertData → List Obs → List (UpsertData × Obs)
  | [], _ => []
  | w :: ws, [] => (w, defaultObs) :: zipObs ws []
  | w :: ws, o :: os => (w, o) :: zipObs ws os

/-- Comparator of handle_n line 390: sort_by(|x, y| y.tx.capacity().cmp(&x.tx.capacity())),
i.e. descending free capacity.  Rust's sort_by is a stable sort, modelled by
Mathlib's stable insertion sort. -/
def descCap (x y : UpsertData × Nat) : Prop := y.2 ≤ x.2

instance : DecidableRel descCap := fun x y => inferInstanceAs (Decidable (y.2 ≤ x.2))

instance : IsTotal (UpsertData × Nat) descCap := ⟨fun a b => le_total b.2 a.2⟩

instance : IsTrans (UpsertData × Nat) descCap :=
  ⟨fun _ _ _ h1 h2 => le_trans h2 h1⟩

/-- Comparator of re_balance_sender line 481: sort_by(|x, y| x.tx.capacity().cmp(&y.tx.capacity())),
i.e. ascending free capacity. -/
def ascCap (x y : UpsertData × Obs) : Prop := x.2.capacity ≤ y.2.capacity

instance : DecidableRel ascCap :=
  fun x y => inferInstanceAs (Decidable (x.2.capacity ≤ y.2.capacity))

/-- Free-capacity percentage of handle_n line 400:
sender_0.tx.capacity() as f64 / self.buffer_size as f64 * 100f64. -/
def capacity_pct (cfg : Cfg) (cap : Nat) : ℚ :=
  (cap : ℚ) / (cfg.bufferSize : ℚ) * 100

/-- Where handle_n sent the sub-vector. -/
inductive DispatchOutcome where
  /-- Free capacity above the threshold: the sub-vector was enqueued on the
  head (highest-free-capacity) worker's channel (line 448). -/
  | toHead (w : UpsertData)
  /-- A new worker was spawned and the sub-vector became the first send on
  its fresh channel (lines 407-423). -/
  | toNew (w : UpsertData)
  /-- Threshold breached but the connection ceiling is reached: a warning is
  emitted and the sub-vector is enqueued (blocking) on the head worker's
  channel (lines 437-444). -/
  | toHeadAtCeiling (w : UpsertData)
  /-- The tier list was empty; the source panics here (line 396). -/
  | noSenders
deriving DecidableEq, Repr

/-- Result of one handle_n call: the tier list after the in-place sort (and
possible append of the new handle), the updated tx_count, and where the data
went. -/
structure HandleNResult where
  senders : List UpsertData
  txCount : Int
  outcome : DispatchOutcome
deriving DecidableEq, Repr

/-- handle_n (lines 387-457).  dataLen is data.len(); the spawned worker's
process_n task is given queries.get(&data.len()) (lines 410-411), its id is
the current tx_count (lines 409, 420), and tx_count is incremented after a
successful first send (line 422). -/
def handle_n (cfg : Cfg) (dataLen : Nat) (senders : List UpsertData)
    (caps : List Nat) (txCount : Int) (type_ : Nat) : HandleNResult :=
  match List.insertionSort descCap (zipCaps senders caps) with
  | [] => ⟨[], txCount, .noSenders⟩
  | s0 :: rest =>
    if capacity_pct cfg s0.2 ≤ cfg.connectionCreationThreshold then
      if txCount < (cfg.maxConCount : Int) then
        let w : UpsertData := ⟨txCount, type_, dataLen⟩
        ⟨((s0 :: rest).map Prod.fst) ++ [w], txCount + 1, .toNew w⟩
      else ⟨(s0 :: rest).map Prod.fst, txCount, .toHeadAtCeiling s0.1⟩
    else ⟨(s0 :: rest).map Prod.fst, txCount, .toHead s0.1⟩

/-- init_sender (lines 313-337): create count workers; each gets
thread_id = id = the current tx_count and the query holder queries.get(&n),
then tx_count is incremented. -/
def init_sender (n : Nat) : Nat → Int → Nat → List UpsertData × Int
  | 0, txCount, _ => ([], txCount)
  | count + 1, txCount, type_ =>
    let rest := init_sender n count (txCount + 1) type_
    (⟨txCount, type_, n⟩ :: rest.1, rest.2)

/-- The eleven init_sender calls of init_senders (lines 344-356), in source
order, as (n, count, type_) triples.  Note the last call (line 356): the
hundreds tier is created with n = 1, i.e. with the batch_size = 1 query
templates, although its map key and type_ are 100. -/
def initTiers (cfg : Cfg) : List (Nat × Nat × Nat) :=
  [(1, cfg.singleDigits, 1), (2, cfg.singleDigits, 2), (3, cfg.singleDigits, 3),
   (4, cfg.singleDigits, 4), (5, cfg.singleDigits, 5), (6, cfg.singleDigits, 6),
   (7, cfg.singleDigits, 7), (8, cfg.singleDigits, 8), (9, cfg.singleDigits, 9),
   (10, cfg.tens, 10), (1, cfg.hundreds, 100)]

/-- Run the init_sender calls in order, threading tx_count, and build the
sender map keyed by type_ (the insert calls of lines 359-370). -/
def init_senders_aux : List (Nat × Nat × Nat) → Int →
    List (Nat × List UpsertData) × Int
  | [], txCount => ([], txCount)
  | (n, count, type_) :: rest, txCount =>
    let s := init_sender n count txCount type_
    let m := init_senders_aux rest s.2
    ((type_, s.1) :: m.1, m.2)

/-- init_senders (lines 339-375). -/
def init_senders (cfg : Cfg) (txCount : Int) : List (Nat × List UpsertData) × Int :=
  init_senders_aux (initTiers cfg) txCount

/-- The retire-surplus phase of re_balance_sender (lines 473-487), applied to
the post-prune tier list. -/
def retire_surplus (cfg : Cfg) (senders : List (UpsertData × Obs))
    (initLimit : Nat) (txCount : Int) : List (UpsertData × Obs) × Int :=
  if initLimit < senders.length then
    let fullCapacityCount :=
      (senders.filter fun p => p.2.capacity == cfg.bufferSize).length
    if 0 < fullCapacityCount then
      let amountToPop0 := fullCapacityCount - fullCapacityCount / 2
      let amountToPop :=
        if senders.length - amountToPop0 < initLimit then
          senders.length - initLimit
        else amountToPop0
      let sorted := List.insertionSort ascCap senders
      (sorted.take (sorted.length - amountToPop), txCount - amountToPop)
    else (senders, txCount)
  else (senders, txCount)

/-- re_balance_sender (lines 459-491): prune with
retain(|u| !u.tx.is_closed() || u.join_handler.is_finished()) (line 464),
decrement tx_count by the number removed (line 470), then retire surplus
idle workers. -/
def re_balance_sender (cfg : Cfg) (senders : List (UpsertData × Obs))
    (initLimit : Nat) (txCount : Int) : List UpsertData × Int :=
  let retained := senders.filter fun p => !p.2.isClosed || p.2.isFinished
  let removed : Nat := senders.length - retained.length
  let r := retire_surplus cfg retained initLimit (txCount - removed)
  (r.1.map Prod.fst, r.2)

/-- Per-tier baseline picked by rebalance_senders (lines 496-512):
single_digits for keys below 10, tens for key 10, hundreds for key 100 (any
other key panics in the source; the sender map holds exactly the keys
1..10 and 100). -/
def tierLimit (cfg : Cfg) (k : Nat) : Nat :=
  if k < 10 then cfg.singleDigits else if k = 10 then cfg.tens else cfg.hundreds

/-- rebalance_senders (lines 493-518): run re_balance_sender on every tier,
threading tx_count.  The observations for tier k are obs k (positional). -/
def rebalance_aux (cfg : Cfg) : List (Nat × List UpsertData) →
    (Nat → List Obs) → Int → List (Nat × List UpsertData) × Int
  | [], _, txCount => ([], txCount)
  | (k, tier) :: rest, obs, txCount =>
    let r := re_balance_sender cfg (zipObs tier (obs k)) (tierLimit cfg k) txCount
    let m := rebalance_aux cfg rest obs r.2
    ((k, r.1) :: m.1, m.2)

/-- Engine-owned mutable state of the ingress loop: the sender map and
tx_count.  spawnLog and allIds are observation instrumentation: the ids of
the workers the dispatcher spawned after startup, and all assigned worker
ids in assignment order. -/
structure EngineState where
  senders : List (Nat × List UpsertData)
  txCount : Int
  spawnLog : List Int
  allIds : List Int
deriving DecidableEq, Repr

/-- One engine-visible event: the dispatcher handles one sub-vector of
length k (push_to_handle routes it to tier k and passes type_ = k), with the
tier's channels reporting the given free capacities; or one rebalancer pass
runs with the given per-tier observations. -/
inductive Event where
  | dispatch (k : Nat) (caps : List Nat)
  | rebalance (obs : Nat → List Obs)

/-- Replace the value stored under key k in the sender map. -/
def updateAssoc (m : List (Nat × List UpsertData)) (k : Nat)
    (v : List UpsertData) : List (Nat × List UpsertData) :=
  m.map fun p => if p.1 = k then (k, v) else p

/-- push_to_handle + handle_n for one sub-vector of length k (lines
377-457).  A missing tier makes the source panic (line 382); the sender map
always holds the ladder keys, so the model leaves the state unchanged
there. -/
def stepDispatch (cfg : Cfg) (s : EngineState) (k : Nat) (caps : List Nat) :
    EngineState :=
  match s.senders.lookup k with
  | none => s
  | some tier =>
    let r := handle_n cfg k tier caps s.txCount k
    { senders := updateAssoc s.senders k r.senders
      txCount := r.txCount
      spawnLog :=
        match r.outcome with
        | .toNew w => s.spawnLog ++ [w.id]
        | _ => s.spawnLog
      allIds :=
        match r.outcome with
        | .toNew w => s.allIds ++ [w.id]
        | _ => s.allIds }

/-- One rebalance_senders pass. -/
def stepRebalance (cfg : Cfg) (s : EngineState) (obs : Nat → List Obs) :
    EngineState :=
  let r := rebalance_aux cfg s.senders obs s.txCount
  { s with senders := r.1, txCount := r.2 }

/-- One step of the ingress loop's mutation of the worker pool. -/
def step (cfg : Cfg) (s : EngineState) : Event → EngineState
  | .dispatch k caps => stepDispatch cfg s k caps
  | .rebalance obs => stepRebalance cfg s obs

/-- Engine state right after init_senders (run, lines 79-82). -/
def initState (cfg : Cfg) : EngineState :=
  let r := init_senders cfg 0
  { senders := r.1
    txCount := r.2
    spawnLog := []
    allIds := ((r.1.map fun p => p.2.map UpsertData.id).flatten) }

/-- Engine state after a sequence of events. -/
def run (cfg : Cfg) (evs : List Event) : EngineState :=
  evs.foldl (step cfg) (initState cfg)

/-- Every state the engine passes through while consuming evs, the initial
state included. -/
def statesOf (cfg : Cfg) : EngineState → List Event → List EngineState
  | s, [] => [s]
  | s, e :: evs => s :: statesOf cfg (step cfg s e) evs

/-- Total baseline worker count: nine single-digit tiers, the tens tier and
the hundreds tier. -/
def baselineTotal (cfg : Cfg) : Nat :=
  9 * cfg.singleDigits + cfg.tens + cfg.hundreds

/-- An event is removal-free when every observation a rebalancer pass could
read reports an open channel that is not fully idle, so neither the prune
nor the retire phase can drop a handle.  Dispatch events are always
removal-free. -/
def HealthyEvent (cfg : Cfg) : Event → Prop
  | .dispatch _ _ => True
  | .rebalance obs => ∀ k, ∀ o ∈ obs k, o.isClosed = false ∧ o.capacity ≠ cfg.bufferSize

/-- The prune rule exactly as the specification states it (spec 4.7 step 1):
remove handles whose sender is closed OR whose task handle reports finished,
i.e. retain a handle only when its sender is open and its task is still
running.  Kept beside the source's retain predicate of line 464 for
comparison. -/
def specPrune (senders : List (UpsertData × Obs)) : List (UpsertData × Obs) :=
  senders.filter fun p => !(p.2.isClosed || p.2.isFinished)

/-- Modelled from the spec: the Query Registry (builder::support, not under
src) maps table → (batch_size → SQL template); queries.get(&n) hands a
worker the per-table templates for batch size n, and process_n prepares them
into its statement map (lines 281-283) and passes statement_map.get(&table)
to upsert (line 292).  A prepared statement is identified by the pair
(table, batch size it was prepared for), so the statement a worker passes to
upsert for a sub-vector of table tbl is (tbl, queryArity of the worker). -/
def statementPassed (w : UpsertData) (tbl : String) : String × Nat :=
  (tbl, w.queryArity)

/-- The fixed arity ladder: the sub-vector sizes the engine pre-creates
tiers and prepared statements for. -/
def arityLadder : List Nat := [1, 2, 3, 4, 5, 6, 7, 8, 9, 10, 100]

/-- Modelled from the spec: split_vec (the Batch Splitter, crate root, not
under src; spec 4.4): consume the vector from the front in descending arity
order - as many 100-batches as fit, then as many 10-batches, then one batch
of the remaining length (which lies in 1..9). -/
def split_vec {α : Type} (l : List α) : List (List α) :=
  if l.length = 0 then []
  else if 100 ≤ l.length then l.take 100 :: split_vec (l.drop 100)
  else if 10 ≤ l.length then l.take 10 :: split_vec (l.drop 10)
  else [l]
termination_by l.length
decreasing_by
  · simp only [List.length_drop]; omega
  · simp only [List.length_drop]; omega

/-- A row, reduced to what the engine observes: its destination table
(table()) and its primary key (pkey(), used only for logging). -/
abbrev Row : Type := String × Int

/-- Destination table of a row. -/
def Row.table (r : Row) : String := r.1

/-- Modelled from the spec: the Batch Holder (support::DataHolder, not under
src; spec 4.3) is a mapping table → rows.  addRow appends one row to its
table's bucket, creating the bucket if absent. -/
def addRow : List (String × List Row) → Row → List (String × List Row)
  | [], r => [(r.table, [r])]
  | (t, rs) :: rest, r =>
    if t = r.table then (t, rs ++ [r]) :: rest else (t, rs) :: addRow rest r

/-- Modelled from the spec: DataHolder::add_all(incoming, threshold) appends
each incoming row to its table bucket, then removes and returns every bucket
whose length reached the threshold (comparison is length ≥ threshold).
Returns (holder after removal, flushed buckets). -/
def add_all (h : List (String × List Row)) (incoming : List Row)
    (threshold : Nat) : List (String × List Row) × List (String × List Row) :=
  let h1 := incoming.foldl addRow h
  (h1.filter fun b => b.2.length < threshold,
   h1.filter fun b => threshold ≤ b.2.length)

/-- Modelled from the spec: DataHolder::len(), the total row count across
all buckets. -/
def holderLen (h : List (String × List Row)) : Nat :=
  (h.map fun b => b.2.length).sum

/-- How the lag window of process_received exited. -/
inductive LagExit where
  /-- try_recv returned data and afterwards the holder was empty (line 166). -/
  | drained
  /-- an empty poll pushed the local counter past introduced_lag_cycles
  (line 177). -/
  | lagExceeded
  /-- the supplied list of poll outcomes was exhausted with the loop still
  running (a finite observation window of the unbounded source loop). -/
  | inputEnded
deriving DecidableEq, Repr

/-- Result of the lag window: the buckets dispatched from within the window
(flushes triggered by data received during the window), the holder contents
when the window exited, the number of empty (Err) polls the window consumed,
and how it exited. -/
structure LagResult where
  dispatched : List (String × List Row)
  holder : List (String × List Row)
  emptyPolls : Nat
  exit : LagExit
deriving DecidableEq, Repr

/-- The lag window of process_received (lines 150-185).  polls is the
sequence of try_recv outcomes the inbound channel would produce: some data
for Ok(more_data), none for Err(_).  counter is the local variable
introduced_lag_cycles of line 151 (starting at 0); on an empty poll it is
incremented and compared with the configured cycle count (strictly greater
exits the window, line 175); otherwise the loop sleeps and retries.  On data
the flushed buckets are dispatched and the window exits if the holder became
empty (lines 164-167); the counter is not reset. -/
def lagWindow (cfg : Cfg) : List (Option (List Row)) →
    List (String × List Row) → Nat → LagResult
  | [], h, _ => ⟨[], h, 0, .inputEnded⟩
  | poll :: rest, h, counter =>
    match poll with
    | some moreData =>
      let r1 := add_all h moreData cfg.maxRecordsPerCycleBatch
      if holderLen r1.1 = 0 then ⟨r1.2, r1.1, 0, .drained⟩
      else
        let r := lagWindow cfg rest r1.1 counter
        ⟨r1.2 ++ r.dispatched, r.holder, r.emptyPolls, r.exit⟩
    | none =>
      if cfg.introducedLagCycles < counter + 1 then ⟨[], h, 1, .lagExceeded⟩
      else
        let r := lagWindow cfg rest h (counter + 1)
        ⟨r.dispatched, r.holder, r.emptyPolls + 1, r.exit⟩

/-- What one process_received call did with the rows it buffered. -/
structure ProcResult where
  /-- the (table, rows) pairs passed to send_processed, in order; each is
  then split by split_vec and pushed to the tier workers. -/
  dispatched : List (String × List Row)
  /-- the holder contents still present when the call returns; the holder is
  a local value (line 139), so these rows are dropped. -/
  dropped : List (String × List Row)
deriving DecidableEq, Repr

/-- process_received (lines 138-198), without the final rebalance call
(modelled separately as a rebalance event).  A fresh DataHolder is created
per call (line 139).  If add_all flushed at least one bucket, exactly the
flushed buckets are dispatched and the function returns - the lag window and
the get_all drain run only in the no-flush branch, so whatever stayed in the
holder is dropped with it.  Otherwise, if the holder is non-empty, the lag
window runs and afterwards get_all drains and dispatches every remaining
bucket (lines 187-193). -/
def process_received (cfg : Cfg) (data : List Row)
    (polls : List (Option (List Row))) : ProcResult :=
  let r1 := add_all [] data cfg.maxRecordsPerCycleBatch
  if 0 < r1.2.length then
    ⟨r1.2, r1.1⟩
  else if 0 < holderLen r1.1 then
    let r := lagWindow cfg polls r1.1 0
    ⟨r.dispatched ++ r.holder, []⟩
  else ⟨[], []⟩

/-! Concrete configurations and inputs used by the evaluation theorems. -/

/-- A configuration with only the hundreds tier populated. -/
def cfgHundredsOnly : Cfg :=
  ⟨5, 10, 0, 0, 1, 10, 0, 50⟩

/-- A worker handle observed with its sender closed and its task finished:
a dead worker. -/
def deadWorker : UpsertData := ⟨0, 1, 1⟩

/-- Observation of deadWorker: is_closed and is_finished both true. -/
def deadFinishedObs : Obs := ⟨true, true, 0⟩

/-- Baselines 1/1/1 with max_connections 5: the eleven baseline workers
exceed the ceiling. -/
def cfgOverfullBaseline : Cfg :=
  ⟨5, 10, 1, 1, 1, 10, 0, 50⟩

/-- Tier list for the retire-surplus evaluation: two fully idle workers and
one busy worker, baseline 1. -/
def sendersRetire : List (UpsertData × Obs) :=
  [(⟨0, 1, 1⟩, ⟨false, false, 10⟩), (⟨1, 1, 1⟩, ⟨false, false, 10⟩),
   (⟨2, 1, 1⟩, ⟨false, false, 4⟩)]

/-- Observations for one rebalancer pass during which the first tier-100
worker is seen with its sender closed but its task not yet finished (the
transient state of a worker that just died: process_n has dropped its
receiver but the join handle does not report finished yet).  All other
workers report the default observation. -/
def obsKill : Nat → List Obs :=
  fun k => if k = 100 then [⟨true, false, 3⟩] else []

/-- One rebalancer pass that prunes the dead tier-100 worker, followed by
the dispatch of one 100-row sub-vector whose tier channel reports 5 free
slots out of 10. -/
def killThenDispatch : List Event :=
  [Event.rebalance obsKill, Event.dispatch 100 [5]]

/-- Threshold 100 and max_connections 2 = baseline total (two tier-100
baseline workers, all other baselines zero). -/
def cfgScaleRace : Cfg := ⟨2, 10, 0, 0, 2, 10, 0, 100⟩

/-- Two tier-100 baseline workers, threshold 100, max_connections 5:
headroom to scale up once a removal frees the counter. -/
def cfgIdReuse : Cfg := ⟨5, 10, 0, 0, 2, 10, 0, 100⟩

/-- One ingress batch: ten rows for table A (reaching the flush threshold
10) and three rows for table B (below it). -/
def rowsFlushTest : List Row :=
  [("A", 0), ("A", 1), ("A", 2), ("A", 3), ("A", 4), ("A", 5), ("A", 6),
   ("A", 7), ("A", 8), ("A", 9), ("B", 0), ("B", 1), ("B", 2)]

/-! Claim theorems. -/

/-- Claim C1 (code bug in the source): every tier-k worker is supposed to
prepare the batch_size = k templates, so that the statement passed to upsert
is the one prepared for (table(rows[0]), len(rows)).  The dispatcher's
spawns satisfy this (handle_n passes n = data.len(), lines 410-411), but
init_senders creates the hundreds tier with n = 1 (line 356): with
single_digits = tens = 0 and hundreds = 1, the unique tier-100 baseline
worker passes the statement prepared for batch size 1, not 100, to the
upsert of a 100-row sub-vector of table t. -/
theorem tier100_baseline_prepares_arity_one :
    ((init_senders cfgHundredsOnly 0).1.lookup 100).map
        (fun ws => ws.map fun w => statementPassed w "t") = some [("t", 1)]
    ∧ ("t", 1) ≠ ("t", 100) := by
  exact ⟨by decide, by decide⟩

/-- Claim C2 (code bug in the source): the prune of re_balance_sender is
specified to remove handles whose sender is closed OR whose task reports
finished.  The source's retain predicate (line 464) is
!is_closed || is_finished, which keeps every handle whose task has
finished: on a single dead worker (closed and finished) the pass removes
nothing and leaves tx_count untouched, while the specified prune removes
it. -/
theorem prune_retains_dead_finished_worker :
    re_balance_sender cfgHundredsOnly [(deadWorker, deadFinishedObs)] 1 5
      = ([deadWorker], 5)
    ∧ specPrune [(deadWorker, deadFinishedObs)] = [] := by
  exact ⟨by decide, by decide⟩

/-- Claim C4, counterexample: nothing in the engine relates the baselines to
max_connections.  With single_digits = tens = hundreds = 1 and
max_connections = 5, the state right after the baseline workers are created
has tx_count = 11 > 5. -/
theorem baseline_workers_exceed_max_connections :
    (initState cfgOverfullBaseline).txCount = 11
    ∧ ¬ ((initState cfgOverfullBaseline).txCount
          ≤ (cfgOverfullBaseline.maxConCount : Int)) := by
  exact ⟨by decide, by decide⟩

/-- Fuel-bounded form of the split_vec round-trip: used to drive the strong
induction on the vector length. -/
theorem split_vec_partition_aux {α : Type} :
    ∀ (n : Nat) (l : List α), l.length ≤ n →
      (split_vec l).flatten = l ∧ ∀ c ∈ split_vec l, c.length ∈ arityLadder := by
  intro n
  induction n with
  | zero =>
    intro l hl
    have : l = [] := List.eq_nil_of_length_eq_zero (Nat.le_zero.mp hl)
    subst this
    rw [split_vec]
    simp
  | succ n ih =>
    intro l hl
    rw [split_vec]
    by_cases h0 : l.length = 0
    · have : l = [] := List.eq_nil_of_length_eq_zero h0
      subst this
      simp
    · rw [if_neg h0]
      by_cases h100 : 100 ≤ l.length
      · rw [if_pos h100]
        have hd : (l.drop 100).length ≤ n := by
          simp only [List.length_drop]; omega
        obtain ⟨ihf, ihm⟩ := ih (l.drop 100) hd
        constructor
        · simp [ihf]
        · intro c hc
          rcases List.mem_cons.mp hc with hc | hc
          · subst hc
            have : (l.take 100).length = 100 := by
              simp only [List.length_take]; omega
            rw [this]; decide
          · exact ihm c hc
      · rw [if_neg h100]
        by_cases h10 : 10 ≤ l.length
        · rw [if_pos h10]
          have hd : (l.drop 10).length ≤ n := by
            simp only [List.length_drop]; omega
          obtain ⟨ihf, ihm⟩ := ih (l.drop 10) hd
          constructor
          · simp [ihf]
          · intro c hc
            rcases List.mem_cons.mp hc with hc | hc
            · subst hc
              have : (l.take 10).length = 10 := by
                simp only [List.length_take]; omega
              rw [this]; decide
            · exact ihm c hc
        · rw [if_neg h10]
          constructor
          · simp
          · intro c hc
            rcases List.mem_cons.mp hc with hc | hc
            · subst hc
              simp only [arityLadder, List.mem_cons]
              omega
            · simp at hc

/-- Claim C6: splitting a row vector and concatenating the resulting
sub-vectors, in order, yields the original vector, and every emitted
sub-vector's length lies on the arity ladder 1..10, 100. -/
theorem split_vec_partition {α : Type} (l : List α) :
    (split_vec l).flatten = l ∧ ∀ c ∈ split_vec l, c.length ∈ arityLadder :=
  split_vec_partition_aux l.length l (Nat.le_refl _)

/-- Claim C7: for a tier whose post-prune worker count exceeds its baseline,
the retire phase counts the workers whose channel is entirely free, removes
at most the ceiling of half that count, never drops the tier below the
baseline, decrements tx_count by exactly the number removed, and (when it
removes anything at all, i.e. when the full-capacity count is positive)
keeps precisely a prefix of the tier sorted ascending by free capacity -
the victims are popped from the tail, the most idle workers. -/
theorem retire_surplus_spec (cfg : Cfg) (senders : List (UpsertData × Obs))
    (initLimit : Nat) (txCount : Int) (h : initLimit < senders.length) :
    let r := retire_surplus cfg senders initLimit txCount
    let fullCount := (senders.filter fun p => p.2.capacity == cfg.bufferSize).length
    let removed := senders.length - r.1.length
    removed ≤ (fullCount + 1) / 2
    ∧ initLimit ≤ r.1.length
    ∧ r.2 = txCount - removed
    ∧ (0 < fullCount →
        r.1 = (List.insertionSort ascCap senders).take (senders.length - removed)) := by
  have hfle : (senders.filter fun p => p.2.capacity == cfg.bufferSize).length
      ≤ senders.length := List.length_filter_le _ _
  simp only [retire_surplus]
  rw [if_pos h]
  set full := (senders.filter fun p => p.2.capacity == cfg.bufferSize).length with hfull
  by_cases hf : 0 < full
  · rw [if_pos hf]
    dsimp only
    set pop := if senders.length - (full - full / 2) < initLimit
      then senders.length - initLimit else (full - full / 2) with hpop
    have hsl : (List.insertionSort ascCap senders).length = senders.length :=
      List.length_insertionSort _ _
    have hpople : pop ≤ senders.length := by
      rw [hpop]; split <;> omega
    have htake : ((List.insertionSort ascCap senders).take
        ((List.insertionSort ascCap senders).length - pop)).length
        = senders.length - pop := by
      rw [List.length_take, hsl]; omega
    have hrem : senders.length - (senders.length - pop) = pop := by omega
    refine ⟨?_, ?_, ?_, ?_⟩
    · rw [htake, hrem, hpop]
      split <;> omega
    · rw [htake]
      rw [hpop]; split <;> omega
    · rw [htake, hrem]
    · intro _
      rw [htake, hrem, hsl]
  · rw [if_neg hf]
    dsimp only
    have h0 : senders.length - senders.length = 0 := by omega
    refine ⟨by omega, by omega, ?_, ?_⟩
    · rw [h0]; simp
    · intro hx; omega

/-- Tier list and parameters for the retire-surplus evaluation: baseline 1,
three survivors, two of them fully idle. -/
theorem retire_surplus_spec_witness :
    1 < sendersRetire.length ∧
    (let r := retire_surplus cfgHundredsOnly sendersRetire 1 3
     let fullCount :=
       (sendersRetire.filter fun p => p.2.capacity == cfgHundredsOnly.bufferSize).length
     let removed := sendersRetire.length - r.1.length
     removed ≤ (fullCount + 1) / 2
     ∧ 1 ≤ r.1.length
     ∧ r.2 = 3 - removed
     ∧ (0 < fullCount →
         r.1 = (List.insertionSort ascCap sendersRetire).take
           (sendersRetire.length - removed))) :=
  ⟨by decide, retire_surplus_spec cfgHundredsOnly sendersRetire 1 3 (by decide)⟩

/-- Bound on the empty polls the lag window consumes, generalized over the
value of the local counter when the window is entered. -/
theorem lagWindow_aux (cfg : Cfg) :
    ∀ (polls : List (Option (List Row))) (h : List (String × List Row))
      (counter : Nat), counter ≤ cfg.introducedLagCycles →
      (lagWindow cfg polls h counter).emptyPolls + counter
          ≤ cfg.introducedLagCycles + 1
      ∧ ((lagWindow cfg polls h counter).exit = LagExit.lagExceeded ↔
         (lagWindow cfg polls h counter).emptyPolls + counter
             = cfg.introducedLagCycles + 1) := by
  intro polls
  induction polls with
  | nil =>
    intro h counter hc
    simp only [lagWindow]
    refine ⟨by omega, ⟨fun hx => absurd hx (by decide), fun hx => absurd hx (by omega)⟩⟩
  | cons p rest ih =>
    intro h counter hc
    cases p with
    | some d =>
      simp only [lagWindow]
      split
      · dsimp only
        refine ⟨by omega, ⟨fun hx => absurd hx (by decide), fun hx => absurd hx (by omega)⟩⟩
      · dsimp only
        exact ih _ counter hc
    | none =>
      simp only [lagWindow]
      split
      · next hlt =>
        dsimp only
        refine ⟨by omega, ⟨fun _ => by omega, fun _ => rfl⟩⟩
      · next hge =>
        dsimp only
        have hc' : counter + 1 ≤ cfg.introducedLagCycles := by omega
        obtain ⟨h1, h2⟩ := ih h (counter + 1) hc'
        refine ⟨by omega, ?_⟩
        constructor
        · intro hx
          have := h2.mp hx
          omega
        · intro hx
          exact h2.mpr (by omega)

/-- Claim C8: entering the lag window with its local counter at 0, every
empty non-blocking poll increments the counter, and the window exits by the
lag-exceeded branch exactly when the counter passes introduced_lag_cycles,
i.e. on the (introduced_lag_cycles + 1)-th empty poll; hence the window
consumes at most introduced_lag_cycles + 1 empty polls - in particular at
most one when introduced_lag_cycles = 0 - before process_received drains the
remaining holder contents and dispatches them. -/
theorem lag_window_empty_poll_count (cfg : Cfg)
    (polls : List (Option (List Row))) (h : List (String × List Row)) :
    (lagWindow cfg polls h 0).emptyPolls ≤ cfg.introducedLagCycles + 1
    ∧ ((lagWindow cfg polls h 0).exit = LagExit.lagExceeded ↔
       (lagWindow cfg polls h 0).emptyPolls = cfg.introducedLagCycles + 1) := by
  have hx := lagWindow_aux cfg polls h 0 (Nat.zero_le _)
  simpa using hx

/-! Facts about the baseline construction and the event-step machinery,
used by the trace invariants below. -/

/-- init_sender leaves tx_count incremented once per created worker. -/
theorem init_sender_snd (n : Nat) :
    ∀ (count : Nat) (txCount : Int) (type_ : Nat),
      (init_sender n count txCount type_).2 = txCount + count := by
  intro count
  induction count with
  | zero => intro txCount type_; simp [init_sender]
  | succ c ih =>
    intro txCount type_
    have := ih (txCount + 1) type_
    simp only [init_sender, this]
    push_cast
    ring

/-- The ids init_sender assigns are txCount, txCount + 1, ...: they form a
strictly increasing chain bounded by the initial and final counter. -/
theorem init_sender_ids (n : Nat) :
    ∀ (count : Nat) (txCount : Int) (type_ : Nat),
      List.Chain' (· < ·) ((init_sender n count txCount type_).1.map UpsertData.id)
      ∧ ∀ i ∈ (init_sender n count txCount type_).1.map UpsertData.id,
          txCount ≤ i ∧ i < txCount + count := by
  intro count
  induction count with
  | zero =>
    intro txCount type_
    simp [init_sender]
  | succ c ih =>
    intro txCount type_
    obtain ⟨ihc, ihb⟩ := ih (txCount + 1) type_
    constructor
    · simp only [init_sender, List.map_cons]
      rw [List.chain'_cons']
      refine ⟨?_, ihc⟩
      intro y hy
      have hmem : y ∈ (init_sender n c (txCount + 1) type_).1.map UpsertData.id :=
        List.mem_of_mem_head? hy
      have := (ihb y hmem).1
      omega
    · intro i hi
      simp only [init_sender, List.map_cons, List.mem_cons] at hi
      rcases hi with hi | hi
      · subst hi
        constructor
        · omega
        · push_cast; omega
      · obtain ⟨h1, h2⟩ := ihb i hi
        constructor
        · omega
        · push_cast at h2 ⊢; omega

/-- Concatenating two strictly increasing id lists separated by a bound
stays strictly increasing. -/
theorem chain'_lt_append {xs ys : List Int} (b : Int)
    (hx : List.Chain' (· < ·) xs) (hy : List.Chain' (· < ·) ys)
    (h1 : ∀ i ∈ xs, i < b) (h2 : ∀ i ∈ ys, b ≤ i) :
    List.Chain' (· < ·) (xs ++ ys) := by
  rw [List.chain'_append]
  refine ⟨hx, hy, ?_⟩
  intro x hxl y hyl
  obtain ⟨hne, hxeq⟩ := List.mem_getLast?_eq_getLast hxl
  have hxm : x ∈ xs := by rw [hxeq]; exact List.getLast_mem hne
  have hym : y ∈ ys := List.mem_of_mem_head? hyl
  have := h1 x hxm
  have := h2 y hym
  omega

/-- Counter value and id layout produced by the init_sender sequence: the
final counter is the initial one plus the total worker count, and the
assigned ids, in creation order, are strictly increasing and bounded by the
two counter values. -/
theorem init_senders_aux_spec :
    ∀ (tiers : List (Nat × Nat × Nat)) (txCount : Int),
      (init_senders_aux tiers txCount).2
          = txCount + ((tiers.map fun p => p.2.1).sum : Nat)
      ∧ List.Chain' (· < ·)
          (((init_senders_aux tiers txCount).1.map fun p =>
              p.2.map UpsertData.id).flatten)
      ∧ ∀ i ∈ ((init_senders_aux tiers txCount).1.map fun p =>
              p.2.map UpsertData.id).flatten,
          txCount ≤ i ∧ i < (init_senders_aux tiers txCount).2 := by
  intro tiers
  induction tiers with
  | nil =>
    intro txCount
    simp [init_senders_aux]
  | cons t rest ih =>
    intro txCount
    obtain ⟨n, c, ty⟩ := t
    obtain ⟨ihs, ihc, ihb⟩ := ih (init_sender n c txCount ty).2
    obtain ⟨sc, sb⟩ := init_sender_ids n c txCount ty
    have hsnd := init_sender_snd n c txCount ty
    refine ⟨?_, ?_, ?_⟩
    · simp only [init_senders_aux, List.map_cons, List.sum_cons]
      rw [ihs, hsnd]
      push_cast
      ring
    · simp only [init_senders_aux, List.map_cons, List.flatten_cons]
      refine chain'_lt_append (txCount + c) sc ihc ?_ ?_
      · intro i hi; exact (sb i hi).2
      · intro i hi
        have h' := (ihb i hi).1
        omega
    · intro i hi
      simp only [init_senders_aux, List.map_cons, List.flatten_cons,
        List.mem_append] at hi
      have htot : (init_senders_aux rest (init_sender n c txCount ty).2).2
          = txCount + c + ((rest.map fun p => p.2.1).sum : Nat) := by
        rw [ihs, hsnd]
      rcases hi with hi | hi
      · obtain ⟨hl, hr⟩ := sb i hi
        constructor
        · exact hl
        · simp only [init_senders_aux]
          rw [htot]
          have : (0 : Int) ≤ ((rest.map fun p => p.2.1).sum : Nat) := by positivity
          omega
      · obtain ⟨hl, hr⟩ := ihb i hi
        constructor
        · rw [hsnd] at hl; omega
        · simpa only [init_senders_aux] using hr

/-- tx_count right after init_senders is the baseline total. -/
theorem initState_txCount (cfg : Cfg) :
    (initState cfg).txCount = (baselineTotal cfg : Int) := by
  have h := (init_senders_aux_spec (initTiers cfg) 0).1
  simp only [initState, init_senders, baselineTotal]
  rw [h]
  simp only [initTiers, List.map_cons, List.map_nil, List.sum_cons, List.sum_nil]
  push_cast
  ring

/-- The baseline ids are strictly increasing and below the initial
tx_count. -/
theorem initState_ids (cfg : Cfg) :
    List.Chain' (· < ·) (initState cfg).allIds
    ∧ ∀ i ∈ (initState cfg).allIds, i < (initState cfg).txCount := by
  obtain ⟨-, hc, hb⟩ := init_senders_aux_spec (initTiers cfg) 0
  exact ⟨hc, fun i hi => (hb i hi).2⟩

/-- Case analysis of one handle_n call: either it does not spawn and leaves
tx_count alone, or tx_count was below the ceiling and it spawns a worker
whose id is the old tx_count, incrementing the counter. -/
theorem handle_n_cases (cfg : Cfg) (dataLen : Nat) (senders : List UpsertData)
    (caps : List Nat) (txCount : Int) (type_ : Nat) :
    ((handle_n cfg dataLen senders caps txCount type_).txCount = txCount
      ∧ ∀ w, (handle_n cfg dataLen senders caps txCount type_).outcome
          ≠ DispatchOutcome.toNew w)
    ∨ ((handle_n cfg dataLen senders caps txCount type_).txCount = txCount + 1
      ∧ txCount < (cfg.maxConCount : Int)
      ∧ (handle_n cfg dataLen senders caps txCount type_).outcome
          = DispatchOutcome.toNew ⟨txCount, type_, dataLen⟩) := by
  unfold handle_n
  split
  · left
    exact ⟨rfl, fun w h => by cases h⟩
  · split
    · split
      · next hlt =>
        right
        exact ⟨rfl, hlt, rfl⟩
      · left
        exact ⟨rfl, fun w h => by cases h⟩
    · left
      exact ⟨rfl, fun w h => by cases h⟩

/-- The retire phase never increases tx_count. -/
theorem retire_surplus_snd_le (cfg : Cfg) (senders : List (UpsertData × Obs))
    (initLimit : Nat) (txCount : Int) :
    (retire_surplus cfg senders initLimit txCount).2 ≤ txCount := by
  simp only [retire_surplus]
  split
  · split
    · dsimp only; omega
    · dsimp only; omega
  · dsimp only; omega

/-- One re_balance_sender pass never increases tx_count. -/
theorem re_balance_sender_snd_le (cfg : Cfg) (senders : List (UpsertData × Obs))
    (initLimit : Nat) (txCount : Int) :
    (re_balance_sender cfg senders initLimit txCount).2 ≤ txCount := by
  simp only [re_balance_sender]
  have h := retire_surplus_snd_le cfg
    (senders.filter fun p => !p.2.isClosed || p.2.isFinished) initLimit
    (txCount - ((senders.length -
      (senders.filter fun p => !p.2.isClosed || p.2.isFinished).length : Nat) : Int))
  omega

/-- A full rebalance pass never increases tx_count. -/
theorem rebalance_aux_snd_le (cfg : Cfg) :
    ∀ (m : List (Nat × List UpsertData)) (obs : Nat → List Obs) (txCount : Int),
      (rebalance_aux cfg m obs txCount).2 ≤ txCount := by
  intro m
  induction m with
  | nil => intro obs txCount; simp [rebalance_aux]
  | cons t rest ih =>
    intro obs txCount
    obtain ⟨k, tier⟩ := t
    simp only [rebalance_aux]
    have h1 := re_balance_sender_snd_le cfg (zipObs tier (obs k)) (tierLimit cfg k) txCount
    have h2 := ih obs (re_balance_sender cfg (zipObs tier (obs k)) (tierLimit cfg k) txCount).2
    omega

/-- zipObs only decorates: projecting the workers back out recovers the tier
list. -/
theorem zipObs_map_fst :
    ∀ (ws : List UpsertData) (os : List Obs), (zipObs ws os).map Prod.fst = ws := by
  intro ws
  induction ws with
  | nil => intro os; cases os <;> rfl
  | cons w ws ih =>
    intro os
    cases os with
    | nil => simp [zipObs, ih]
    | cons o os => simp [zipObs, ih]

/-- If every supplied observation is healthy (open channel, not fully idle)
and the buffer size is positive, every paired observation is healthy,
defaults included. -/
theorem zipObs_healthy (cfg : Cfg) (hb : 0 < cfg.bufferSize) :
    ∀ (ws : List UpsertData) (os : List Obs),
      (∀ o ∈ os, o.isClosed = false ∧ o.capacity ≠ cfg.bufferSize) →
      ∀ p ∈ zipObs ws os, p.2.isClosed = false ∧ p.2.capacity ≠ cfg.bufferSize := by
  intro ws
  induction ws with
  | nil => intro os _ p hp; simp [zipObs] at hp
  | cons w ws ih =>
    intro os hos p hp
    cases os with
    | nil =>
      simp only [zipObs, List.mem_cons] at hp
      rcases hp with hp | hp
      · subst hp
        refine ⟨rfl, ?_⟩
        simp only [defaultObs]
        omega
      · exact ih [] (by simp) p hp
    | cons o os =>
      simp only [zipObs, List.mem_cons] at hp
      rcases hp with hp | hp
      · subst hp
        exact hos o (by simp)
      · exact ih os (fun o' ho' => hos o' (by simp [ho'])) p hp

/-- With only healthy observations the retire phase removes nothing. -/
theorem retire_surplus_healthy (cfg : Cfg) (senders : List (UpsertData × Obs))
    (initLimit : Nat) (txCount : Int)
    (h : ∀ p ∈ senders, p.2.capacity ≠ cfg.bufferSize) :
    retire_surplus cfg senders initLimit txCount = (senders, txCount) := by
  have hfe : senders.filter (fun p => p.2.capacity == cfg.bufferSize) = [] := by
    rw [List.filter_eq_nil_iff]
    intro p hp
    simp only [beq_iff_eq]
    exact h p hp
  simp only [retire_surplus, hfe]
  split
  · simp
  · rfl

/-- With only healthy observations re_balance_sender removes nothing and
leaves tx_count alone. -/
theorem re_balance_sender_healthy (cfg : Cfg) (senders : List (UpsertData × Obs))
    (initLimit : Nat) (txCount : Int)
    (h : ∀ p ∈ senders, p.2.isClosed = false ∧ p.2.capacity ≠ cfg.bufferSize) :
    re_balance_sender cfg senders initLimit txCount = (senders.map Prod.fst, txCount) := by
  have hret : senders.filter (fun p => !p.2.isClosed || p.2.isFinished) = senders := by
    rw [List.filter_eq_self]
    intro p hp
    rw [(h p hp).1]
    simp
  simp only [re_balance_sender, hret]
  rw [retire_surplus_healthy cfg senders initLimit _ (fun p hp => (h p hp).2)]
  simp

/-- A rebalance pass whose observations are all healthy is the identity on
the sender map and the counter. -/
theorem rebalance_aux_healthy (cfg : Cfg) (hb : 0 < cfg.bufferSize)
    (obs : Nat → List Obs)
    (hobs : ∀ k, ∀ o ∈ obs k, o.isClosed = false ∧ o.capacity ≠ cfg.bufferSize) :
    ∀ (m : List (Nat × List UpsertData)) (txCount : Int),
      rebalance_aux cfg m obs txCount = (m, txCount) := by
  intro m
  induction m with
  | nil => intro txCount; rfl
  | cons t rest ih =>
    intro txCount
    obtain ⟨k, tier⟩ := t
    simp only [rebalance_aux]
    rw [re_balance_sender_healthy cfg (zipObs tier (obs k)) (tierLimit cfg k) txCount
      (zipObs_healthy cfg hb tier (obs k) (hobs k))]
    simp only [zipObs_map_fst, ih txCount]

/-- A healthy rebalance event leaves the engine state unchanged. -/
theorem stepRebalance_healthy (cfg : Cfg) (hb : 0 < cfg.bufferSize)
    (s : EngineState) (obs : Nat → List Obs)
    (hobs : ∀ k, ∀ o ∈ obs k, o.isClosed = false ∧ o.capacity ≠ cfg.bufferSize) :
    stepRebalance cfg s obs = s := by
  simp only [stepRebalance, rebalance_aux_healthy cfg hb obs hobs]

/-- Invariant preservation along a fold of engine steps. -/
theorem foldl_step_inv (cfg : Cfg) (P : EngineState → Prop) :
    ∀ (evs : List Event) (s : EngineState), P s →
      (∀ s' e, e ∈ evs → P s' → P (step cfg s' e)) →
      P (evs.foldl (step cfg) s) := by
  intro evs
  induction evs with
  | nil => intro s hs _; simpa using hs
  | cons e rest ih =>
    intro s hs hstep
    simp only [List.foldl_cons]
    exact ih (step cfg s e) (hstep s e (by simp) hs)
      (fun s' e' he' hp => hstep s' e' (by simp [he']) hp)

/-- Invariant holding at every intermediate state of a trace. -/
theorem statesOf_inv (cfg : Cfg) (P : EngineState → Prop) :
    ∀ (evs : List Event) (s : EngineState), P s →
      (∀ s' e, e ∈ evs → P s' → P (step cfg s' e)) →
      ∀ x ∈ statesOf cfg s evs, P x := by
  intro evs
  induction evs with
  | nil =>
    intro s hs _ x hx
    simp only [statesOf, List.mem_singleton] at hx
    subst hx; exact hs
  | cons e rest ih =>
    intro s hs hstep x hx
    simp only [statesOf, List.mem_cons] at hx
    rcases hx with hx | hx
    · subst hx; exact hs
    · exact ih (step cfg s e) (hstep s e (by simp) hs)
        (fun s' e' he' hp => hstep s' e' (by simp [he']) hp) x hx

/-- One engine step keeps tx_count at or below the ceiling. -/
theorem step_txCount_le (cfg : Cfg) (s : EngineState) (e : Event)
    (h : s.txCount ≤ (cfg.maxConCount : Int)) :
    (step cfg s e).txCount ≤ (cfg.maxConCount : Int) := by
  cases e with
  | dispatch k caps =>
    simp only [step, stepDispatch]
    cases hc : s.senders.lookup k with
    | none => exact h
    | some tier =>
      dsimp only
      rcases handle_n_cases cfg k tier caps s.txCount k with ⟨htx, -⟩ | ⟨htx, hlt, -⟩
      · rw [htx]; exact h
      · rw [htx]; omega
  | rebalance obs =>
    simp only [step, stepRebalance]
    have := rebalance_aux_snd_le cfg s.senders obs s.txCount
    omega

/-- Claim C4 (amended): provided the configured baselines fit below the
ceiling, i.e. 9 * single_digits + tens + hundreds ≤ max_connections, the
total worker count tx_count is at most max_connections at every point of
every execution, the state right after the baseline workers are created
included.  (Without that proviso the property fails at startup - see
baseline_workers_exceed_max_connections.) -/
theorem total_workers_bounded (cfg : Cfg) (evs : List Event)
    (h : baselineTotal cfg ≤ cfg.maxConCount) :
    ∀ x ∈ statesOf cfg (initState cfg) evs, x.txCount ≤ (cfg.maxConCount : Int) := by
  refine statesOf_inv cfg _ evs (initState cfg) ?_ ?_
  · rw [initState_txCount]
    exact_mod_cast h
  · intro s' e _ hs'
    exact step_txCount_le cfg s' e hs'

/-- The bounded-worker invariant, instantiated on a concrete configuration
(baseline total 1 against ceiling 5) and a trace consisting of one dispatch
to tier 100. -/
theorem total_workers_bounded_witness :
    baselineTotal cfgHundredsOnly ≤ cfgHundredsOnly.maxConCount
    ∧ ∀ x ∈ statesOf cfgHundredsOnly (initState cfgHundredsOnly) [],
        x.txCount ≤ (cfgHundredsOnly.maxConCount : Int) :=
  ⟨by decide, total_workers_bounded cfgHundredsOnly [] (by decide)⟩

/-- One healthy engine step preserves the strictly-increasing id chain and
the bound of every assigned id by tx_count. -/
theorem step_ids_inv (cfg : Cfg) (hb : 0 < cfg.bufferSize)
    (s : EngineState) (e : Event) (he : HealthyEvent cfg e)
    (hc : List.Chain' (· < ·) s.allIds)
    (hbnd : ∀ i ∈ s.allIds, i < s.txCount) :
    List.Chain' (· < ·) (step cfg s e).allIds
    ∧ ∀ i ∈ (step cfg s e).allIds, i < (step cfg s e).txCount := by
  cases e with
  | dispatch k caps =>
    simp only [step, stepDispatch]
    cases hl : s.senders.lookup k with
    | none => exact ⟨hc, hbnd⟩
    | some tier =>
      dsimp only
      rcases handle_n_cases cfg k tier caps s.txCount k with ⟨htx, hout⟩ | ⟨htx, hlt, hout⟩
      · rw [htx]
        cases ho : (handle_n cfg k tier caps s.txCount k).outcome with
        | toNew w => exact absurd ho (hout w)
        | toHead w => exact ⟨hc, hbnd⟩
        | toHeadAtCeiling w => exact ⟨hc, hbnd⟩
        | noSenders => exact ⟨hc, hbnd⟩
      · rw [htx, hout]
        dsimp only
        constructor
        · refine chain'_lt_append s.txCount hc ?_ hbnd ?_
          · simp
          · intro i hi
            simp only [List.mem_singleton] at hi
            omega
        · intro i hi
          rcases List.mem_append.mp hi with hi | hi
          · have := hbnd i hi; omega
          · simp only [List.mem_singleton] at hi; omega
  | rebalance obs =>
    rw [show step cfg s (Event.rebalance obs) = stepRebalance cfg s obs from rfl,
      stepRebalance_healthy cfg hb s obs he]
    exact ⟨hc, hbnd⟩

/-- Claim C3 (amended): a spawned worker's id is the tx_count at the moment
of the spawn, so ids are strictly increasing in assignment order throughout
any execution in which no rebalancer pass removes a worker handle (here:
every observation shows an open, not fully idle channel).  Once the
rebalancer does remove handles it decrements tx_count, and a later spawn
can re-issue an already-used id - see worker_id_reused_after_removal. -/
theorem worker_ids_monotone_without_removals (cfg : Cfg) (evs : List Event)
    (hb : 0 < cfg.bufferSize)
    (h : ∀ e ∈ evs, HealthyEvent cfg e) :
    List.Chain' (· < ·) (run cfg evs).allIds := by
  have hinv : List.Chain' (· < ·) (run cfg evs).allIds
      ∧ ∀ i ∈ (run cfg evs).allIds, i < (run cfg evs).txCount := by
    refine foldl_step_inv cfg
      (fun s => List.Chain' (· < ·) s.allIds ∧ ∀ i ∈ s.allIds, i < s.txCount)
      evs (initState cfg) (initState_ids cfg) ?_
    intro s' e he' hp
    exact step_ids_inv cfg hb s' e (h e he') hp.1 hp.2
  exact hinv.1

/-- The id-monotonicity theorem applied to a concrete removal-free trace:
baseline 0/0/1 and one dispatch event. -/
theorem worker_ids_monotone_witness :
    0 < cfgHundredsOnly.bufferSize
    ∧ (∀ e ∈ [Event.dispatch 100 [5]], HealthyEvent cfgHundredsOnly e)
    ∧ List.Chain' (· < ·) (run cfgHundredsOnly [Event.dispatch 100 [5]]).allIds :=
  ⟨by decide,
   fun e he => by
     rcases List.mem_singleton.mp he with rfl
     trivial,
   worker_ids_monotone_without_removals cfgHundredsOnly [Event.dispatch 100 [5]]
     (by decide)
     (fun e he => by
       rcases List.mem_singleton.mp he with rfl
       trivial)⟩

/-- Claim C9 (amended): with connection_creation_threshold = 100 and
max_connections equal to the baseline total, the dispatcher never spawns a
worker in any execution in which no rebalancer pass removes a handle:
tx_count stays pinned at max_connections, so the scale-up guard
tx_count < max_connections never fires.  Once a rebalancer pass does remove
a handle, tx_count drops below the ceiling and the very next dispatch can
spawn - see scale_up_occurs_after_removal. -/
theorem no_scale_up_without_removals (cfg : Cfg) (evs : List Event)
    (hthr : cfg.connectionCreationThreshold = 100)
    (hmax : cfg.maxConCount = baselineTotal cfg)
    (hb : 0 < cfg.bufferSize)
    (h : ∀ e ∈ evs, HealthyEvent cfg e) :
    (run cfg evs).spawnLog = [] := by
  have hinv : (run cfg evs).txCount = (cfg.maxConCount : Int)
      ∧ (run cfg evs).spawnLog = [] := by
    refine foldl_step_inv cfg
      (fun s => s.txCount = (cfg.maxConCount : Int) ∧ s.spawnLog = []) evs
      (initState cfg) ⟨by rw [initState_txCount, hmax], rfl⟩ ?_
    intro s' e he' hp
    obtain ⟨htx, hlog⟩ := hp
    cases e with
    | dispatch k caps =>
      simp only [step, stepDispatch]
      cases hl : s'.senders.lookup k with
      | none => exact ⟨htx, hlog⟩
      | some tier =>
        dsimp only
        rcases handle_n_cases cfg k tier caps s'.txCount k with
          ⟨htx', hout⟩ | ⟨-, hlt, -⟩
        · refine ⟨by rw [htx', htx], ?_⟩
          cases ho : (handle_n cfg k tier caps s'.txCount k).outcome with
          | toNew w => exact absurd ho (hout w)
          | toHead w => exact hlog
          | toHeadAtCeiling w => exact hlog
          | noSenders => exact hlog
        · rw [htx] at hlt
          omega
    | rebalance obs =>
      rw [show step cfg s' (Event.rebalance obs) = stepRebalance cfg s' obs from rfl,
        stepRebalance_healthy cfg hb s' obs (h _ he')]
      exact ⟨htx, hlog⟩
  exact hinv.2

/-- The no-scale-up theorem applied to a concrete configuration with
threshold 100 and max_connections = baseline total 2, on a removal-free
trace of one dispatch. -/
theorem no_scale_up_witness :
    cfgScaleRace.connectionCreationThreshold = 100
    ∧ cfgScaleRace.maxConCount = baselineTotal cfgScaleRace
    ∧ 0 < cfgScaleRace.bufferSize
    ∧ (∀ e ∈ [Event.dispatch 100 [5]], HealthyEvent cfgScaleRace e)
    ∧ (run cfgScaleRace [Event.dispatch 100 [5]]).spawnLog = [] :=
  ⟨rfl, by decide, by decide,
   fun e he => by
     rcases List.mem_singleton.mp he with rfl
     trivial,
   no_scale_up_without_removals cfgScaleRace [Event.dispatch 100 [5]] rfl
     (by decide) (by decide)
     (fun e he => by
       rcases List.mem_singleton.mp he with rfl
       trivial)⟩

/-- Engine state after the pruning rebalance pass of killThenDispatch, for
the threshold-100 configuration: the dead tier-100 worker is gone and
tx_count dropped from 2 to 1. -/
theorem stepRebalance_killObs_scaleRace :
    step cfgScaleRace (initState cfgScaleRace) (Event.rebalance obsKill)
      = ⟨[(1, []), (2, []), (3, []), (4, []), (5, []), (6, []), (7, []), (8, []),
          (9, []), (10, []), (100, [⟨1, 100, 1⟩])], 1, [], [0, 1]⟩ := by
  decide

/-- The dispatch of the 100-row sub-vector right after the prune: capacity
50% is at or below threshold 100 and tx_count 1 is below the ceiling 2, so
a worker is spawned with id = tx_count = 1. -/
theorem handle_n_after_prune_scaleRace :
    handle_n cfgScaleRace 100 [⟨1, 100, 1⟩] [5] 1 100
      = ⟨[⟨1, 100, 1⟩, ⟨1, 100, 100⟩], 2, DispatchOutcome.toNew ⟨1, 100, 100⟩⟩ := by
  have hpct : capacity_pct cfgScaleRace 5 ≤ cfgScaleRace.connectionCreationThreshold := by
    norm_num [capacity_pct, cfgScaleRace]
  unfold handle_n
  rw [show List.insertionSort descCap (zipCaps [(⟨1, 100, 1⟩ : UpsertData)] [5])
      = [((⟨1, 100, 1⟩ : UpsertData), 5)] from by decide]
  dsimp only
  rw [if_pos hpct, if_pos (show (1 : Int) < (cfgScaleRace.maxConCount : Int) by decide)]
  decide

/-- Claim C9, counterexample: with connection_creation_threshold = 100 and
max_connections = baseline_total = 2, one rebalancer pass that prunes a dead
tier-100 worker drops tx_count to 1, and the very next dispatched
sub-vector makes the dispatcher spawn a new worker (its channel's 50% free
capacity is ≤ threshold 100 and tx_count 1 < max_connections 2).  The
dispatcher therefore does spawn after engine start for this interleaving of
an inbound sequence with a rebalancer pass. -/
theorem scale_up_occurs_after_removal :
    cfgScaleRace.connectionCreationThreshold = 100
    ∧ cfgScaleRace.maxConCount = baselineTotal cfgScaleRace
    ∧ (run cfgScaleRace killThenDispatch).spawnLog = [1] := by
  refine ⟨rfl, by decide, ?_⟩
  show (List.foldl (step cfgScaleRace) (initState cfgScaleRace)
    [Event.rebalance obsKill, Event.dispatch 100 [5]]).spawnLog = [1]
  rw [List.foldl_cons, List.foldl_cons, List.foldl_nil, stepRebalance_killObs_scaleRace]
  show (stepDispatch cfgScaleRace _ 100 [5]).spawnLog = [1]
  simp only [stepDispatch]
  rw [show ([(1, []), (2, []), (3, []), (4, []), (5, []), (6, []), (7, []), (8, []),
        (9, []), (10, []), (100, [⟨1, 100, 1⟩])] :
        List (Nat × List UpsertData)).lookup 100 = some [⟨1, 100, 1⟩] from by decide]
  dsimp only
  rw [handle_n_after_prune_scaleRace]
  decide

/-- Engine state after the pruning rebalance pass of killThenDispatch, for
the configuration with scale-up headroom. -/
theorem stepRebalance_killObs_idReuse :
    step cfgIdReuse (initState cfgIdReuse) (Event.rebalance obsKill)
      = ⟨[(1, []), (2, []), (3, []), (4, []), (5, []), (6, []), (7, []), (8, []),
          (9, []), (10, []), (100, [⟨1, 100, 1⟩])], 1, [], [0, 1]⟩ := by
  decide

/-- The dispatch right after the prune, with max_connections 5: a worker is
spawned and its id is the decremented tx_count 1 - an id that is already in
use. -/
theorem handle_n_after_prune_idReuse :
    handle_n cfgIdReuse 100 [⟨1, 100, 1⟩] [5] 1 100
      = ⟨[⟨1, 100, 1⟩, ⟨1, 100, 100⟩], 2, DispatchOutcome.toNew ⟨1, 100, 100⟩⟩ := by
  have hpct : capacity_pct cfgIdReuse 5 ≤ cfgIdReuse.connectionCreationThreshold := by
    norm_num [capacity_pct, cfgIdReuse]
  unfold handle_n
  rw [show List.insertionSort descCap (zipCaps [(⟨1, 100, 1⟩ : UpsertData)] [5])
      = [((⟨1, 100, 1⟩ : UpsertData), 5)] from by decide]
  dsimp only
  rw [if_pos hpct, if_pos (show (1 : Int) < (cfgIdReuse.maxConCount : Int) by decide)]
  decide

/-- Claim C3, counterexample: worker ids are the running tx_count, and the
rebalancer decrements tx_count when it removes a handle.  Starting from two
baseline tier-100 workers with ids 0 and 1, pruning the dead worker drops
tx_count back to 1, and the next spawn is assigned id 1 again: the sequence
of assigned ids is 0, 1, 1, which is not strictly increasing. -/
theorem worker_id_reused_after_removal :
    (run cfgIdReuse killThenDispatch).allIds = [0, 1, 1]
    ∧ ¬ List.Chain' (· < ·) ([0, 1, 1] : List Int) := by
  constructor
  · show (List.foldl (step cfgIdReuse) (initState cfgIdReuse)
      [Event.rebalance obsKill, Event.dispatch 100 [5]]).allIds = [0, 1, 1]
    rw [List.foldl_cons, List.foldl_cons, List.foldl_nil, stepRebalance_killObs_idReuse]
    show (stepDispatch cfgIdReuse _ 100 [5]).allIds = [0, 1, 1]
    simp only [stepDispatch]
    rw [show ([(1, []), (2, []), (3, []), (4, []), (5, []), (6, []), (7, []), (8, []),
          (9, []), (10, []), (100, [⟨1, 100, 1⟩])] :
          List (Nat × List UpsertData)).lookup 100 = some [⟨1, 100, 1⟩] from by decide]
    dsimp only
    rw [handle_n_after_prune_idReuse]
    decide
  · intro hch
    simp only [List.chain'_cons] at hch
    omega

/-- zipCaps decorates each worker with a capacity, preserving the count. -/
theorem zipCaps_length :
    ∀ (ws : List UpsertData) (cs : List Nat), (zipCaps ws cs).length = ws.length := by
  intro ws
  induction ws with
  | nil => intro cs; cases cs <;> rfl
  | cons w ws ih =>
    intro cs
    cases cs with
    | nil => simp [zipCaps, ih]
    | cons c cs => simp [zipCaps, ih]

/-- Claim C5: for one dispatched sub-vector, handle_n sorts the tier list
descending by free channel capacity and selects the head, which therefore
has maximal free capacity; with capacity_pct = free_capacity / buffer_size
* 100: if capacity_pct is above connection_creation_threshold the
sub-vector is enqueued on the head; otherwise, if tx_count <
max_connections, a new worker (id = tx_count, query arity = the sub-vector
length) is spawned, the sub-vector is its channel's first send, the handle
is appended after the sorted tier list and the counter is incremented;
otherwise the sub-vector is enqueued on the head - a blocking send - and a
warning is emitted (the toHeadAtCeiling outcome). -/
theorem dispatcher_routing (cfg : Cfg) (dataLen : Nat) (senders : List UpsertData)
    (caps : List Nat) (txCount : Int) (type_ : Nat) (hne : senders ≠ []) :
    ∃ hd rest,
      List.insertionSort descCap (zipCaps senders caps) = hd :: rest
      ∧ (∀ p ∈ zipCaps senders caps, p.2 ≤ hd.2)
      ∧ (if capacity_pct cfg hd.2 ≤ cfg.connectionCreationThreshold then
           (if txCount < (cfg.maxConCount : Int) then
              handle_n cfg dataLen senders caps txCount type_
                = ⟨((hd :: rest).map Prod.fst) ++ [⟨txCount, type_, dataLen⟩],
                   txCount + 1, DispatchOutcome.toNew ⟨txCount, type_, dataLen⟩⟩
            else
              handle_n cfg dataLen senders caps txCount type_
                = ⟨(hd :: rest).map Prod.fst, txCount,
                   DispatchOutcome.toHeadAtCeiling hd.1⟩)
         else
           handle_n cfg dataLen senders caps txCount type_
             = ⟨(hd :: rest).map Prod.fst, txCount, DispatchOutcome.toHead hd.1⟩) := by
  have hzlen : (zipCaps senders caps).length = senders.length :=
    zipCaps_length senders caps
  have hs : List.insertionSort descCap (zipCaps senders caps) ≠ [] := by
    intro h0
    apply hne
    have h1 := List.length_insertionSort descCap (zipCaps senders caps)
    rw [h0] at h1
    simp only [List.length_nil] at h1
    have : senders.length = 0 := by omega
    exact List.eq_nil_of_length_eq_zero this
  obtain ⟨hd, rest, hsort⟩ := List.exists_cons_of_ne_nil hs
  refine ⟨hd, rest, hsort, ?_, ?_⟩
  · intro p hp
    have hperm := List.perm_insertionSort descCap (zipCaps senders caps)
    have hmem : p ∈ hd :: rest := by
      rw [← hsort]
      exact (hperm.mem_iff).mpr hp
    have hsorted := List.sorted_insertionSort descCap (zipCaps senders caps)
    rw [hsort] at hsorted
    rcases List.mem_cons.mp hmem with rfl | hmem'
    · exact le_refl _
    · exact (List.pairwise_cons.mp hsorted).1 p hmem'
  · by_cases hc1 : capacity_pct cfg hd.2 ≤ cfg.connectionCreationThreshold
    · rw [if_pos hc1]
      by_cases hc2 : txCount < (cfg.maxConCount : Int)
      · rw [if_pos hc2]
        unfold handle_n
        rw [hsort]
        dsimp only
        rw [if_pos hc1, if_pos hc2]
      · rw [if_neg hc2]
        unfold handle_n
        rw [hsort]
        dsimp only
        rw [if_pos hc1, if_neg hc2]
    · rw [if_neg hc1]
      unfold handle_n
      rw [hsort]
      dsimp only
      rw [if_neg hc1]

/-- The dispatcher routing theorem applied to a concrete one-worker tier. -/
theorem dispatcher_routing_witness :
    ([(⟨0, 1, 1⟩ : UpsertData)] ≠ [])
    ∧ (∃ hd rest,
      List.insertionSort descCap (zipCaps [⟨0, 1, 1⟩] [10]) = hd :: rest
      ∧ (∀ p ∈ zipCaps [⟨0, 1, 1⟩] [10], p.2 ≤ hd.2)
      ∧ (if capacity_pct cfgHundredsOnly hd.2
            ≤ cfgHundredsOnly.connectionCreationThreshold then
           (if (1 : Int) < (cfgHundredsOnly.maxConCount : Int) then
              handle_n cfgHundredsOnly 1 [⟨0, 1, 1⟩] [10] 1 1
                = ⟨((hd :: rest).map Prod.fst) ++ [⟨1, 1, 1⟩],
                   1 + 1, DispatchOutcome.toNew ⟨1, 1, 1⟩⟩
            else
              handle_n cfgHundredsOnly 1 [⟨0, 1, 1⟩] [10] 1 1
                = ⟨(hd :: rest).map Prod.fst, 1,
                   DispatchOutcome.toHeadAtCeiling hd.1⟩)
         else
           handle_n cfgHundredsOnly 1 [⟨0, 1, 1⟩] [10] 1 1
             = ⟨(hd :: rest).map Prod.fst, 1, DispatchOutcome.toHead hd.1⟩)) :=
  ⟨by decide, dispatcher_routing cfgHundredsOnly 1 [⟨0, 1, 1⟩] [10] 1 1 (by decide)⟩

/-- Adding a row introduces at most its own table as a new bucket key. -/
theorem mem_keys_addRow :
    ∀ (h : List (String × List Row)) (r : Row) (a : String),
      a ∈ (addRow h r).map Prod.fst → a ∈ h.map Prod.fst ∨ a = r.table := by
  intro h
  induction h with
  | nil =>
    intro r a ha
    simp only [addRow, List.map_cons, List.map_nil, List.mem_singleton] at ha
    right; exact ha
  | cons b rest ih =>
    intro r a ha
    obtain ⟨t, rs⟩ := b
    simp only [addRow] at ha
    by_cases ht : t = r.table
    · rw [if_pos ht] at ha
      simp only [List.map_cons, List.mem_cons] at ha
      rcases ha with rfl | ha
      · left; simp
      · left; simp [ha]
    · rw [if_neg ht] at ha
      simp only [List.map_cons, List.mem_cons] at ha
      rcases ha with rfl | ha
      · left; simp
      · rcases ih r a ha with hx | hx
        · left; simp [hx]
        · right; exact hx

/-- Adding a row preserves the key-uniqueness of the holder. -/
theorem nodup_keys_addRow :
    ∀ (h : List (String × List Row)) (r : Row),
      (h.map Prod.fst).Nodup → ((addRow h r).map Prod.fst).Nodup := by
  intro h
  induction h with
  | nil =>
    intro r _
    simp [addRow]
  | cons b rest ih =>
    intro r hnd
    obtain ⟨t, rs⟩ := b
    simp only [List.map_cons, List.nodup_cons] at hnd
    obtain ⟨hni, hnd'⟩ := hnd
    simp only [addRow]
    by_cases ht : t = r.table
    · rw [if_pos ht]
      simp only [List.map_cons, List.nodup_cons]
      exact ⟨hni, hnd'⟩
    · rw [if_neg ht]
      simp only [List.map_cons, List.nodup_cons]
      refine ⟨?_, ih r hnd'⟩
      intro hmem
      rcases mem_keys_addRow rest r t hmem with hx | hx
      · exact hni hx
      · exact ht hx

/-- Folding a batch into the holder preserves key-uniqueness. -/
theorem nodup_keys_foldl :
    ∀ (data : List Row) (h : List (String × List Row)),
      (h.map Prod.fst).Nodup → ((data.foldl addRow h).map Prod.fst).Nodup := by
  intro data
  induction data with
  | nil => intro h hnd; simpa using hnd
  | cons r rest ih =>
    intro h hnd
    simp only [List.foldl_cons]
    exact ih (addRow h r) (nodup_keys_addRow h r hnd)

/-- In a holder with unique keys, buckets are determined by their key. -/
theorem eq_of_mem_nodup_keys :
    ∀ (h : List (String × List Row)) (b b' : String × List Row),
      (h.map Prod.fst).Nodup → b ∈ h → b' ∈ h → b.1 = b'.1 → b = b' := by
  intro h
  induction h with
  | nil => intro b b' _ hb _ _; simp at hb
  | cons x rest ih =>
    intro b b' hnd hb hb' heq
    simp only [List.map_cons, List.nodup_cons] at hnd
    obtain ⟨hni, hnd'⟩ := hnd
    rcases List.mem_cons.mp hb with hbx | hb
    · rcases List.mem_cons.mp hb' with hbx' | hb'
      · rw [hbx, hbx']
      · exfalso
        apply hni
        rw [← hbx, heq]
        exact List.mem_map.mpr ⟨b', hb', rfl⟩
    · rcases List.mem_cons.mp hb' with hbx' | hb'
      · exfalso
        apply hni
        rw [← hbx', ← heq]
        exact List.mem_map.mpr ⟨b, hb, rfl⟩
      · exact ih b b' hnd' hb hb' heq

/-- Claim C10: in an ingress iteration where add_all flushes at least one
bucket, process_received dispatches exactly the flushed buckets; the
non-flushed buckets stay in the local holder, which is dropped when the
call returns, and no dropped bucket's table appears among the dispatched
buckets - those rows are never dispatched (the lag window and the get_all
drain run only in the no-flush branch). -/
theorem flushed_iteration_drops_leftovers (cfg : Cfg) (data : List Row)
    (polls : List (Option (List Row)))
    (h : (add_all [] data cfg.maxRecordsPerCycleBatch).2 ≠ []) :
    (process_received cfg data polls).dispatched
        = (add_all [] data cfg.maxRecordsPerCycleBatch).2
    ∧ (process_received cfg data polls).dropped
        = (add_all [] data cfg.maxRecordsPerCycleBatch).1
    ∧ ∀ b ∈ (process_received cfg data polls).dropped,
        b.1 ∉ ((process_received cfg data polls).dispatched.map Prod.fst) := by
  have hlen : 0 < (add_all [] data cfg.maxRecordsPerCycleBatch).2.length :=
    List.length_pos.mpr h
  have hproc : process_received cfg data polls
      = ⟨(add_all [] data cfg.maxRecordsPerCycleBatch).2,
         (add_all [] data cfg.maxRecordsPerCycleBatch).1⟩ := by
    simp only [process_received]
    rw [if_pos hlen]
  rw [hproc]
  refine ⟨rfl, rfl, ?_⟩
  intro b hb hmem
  simp only [add_all] at hb hmem
  obtain ⟨b', hb'mem, hb'eq⟩ := List.mem_map.mp hmem
  have hnd : ((data.foldl addRow []).map Prod.fst).Nodup :=
    nodup_keys_foldl data [] (by simp)
  have hb1 : b ∈ data.foldl addRow [] := List.mem_of_mem_filter hb
  have hb2 : b' ∈ data.foldl addRow [] := List.mem_of_mem_filter hb'mem
  have hbb : b = b' := eq_of_mem_nodup_keys _ b b' hnd hb1 hb2 hb'eq.symm
  subst hbb
  have p1 := List.of_mem_filter hb
  have p2 := List.of_mem_filter hb'mem
  simp only [decide_eq_true_eq] at p1 p2
  omega

/-- The dropped-leftovers theorem applied to a concrete batch: table A
flushes at threshold 10, table B's three rows are dropped. -/
theorem flushed_iteration_drops_leftovers_witness :
    (add_all [] rowsFlushTest cfgHundredsOnly.maxRecordsPerCycleBatch).2 ≠ []
    ∧ ((process_received cfgHundredsOnly rowsFlushTest []).dispatched
          = (add_all [] rowsFlushTest cfgHundredsOnly.maxRecordsPerCycleBatch).2
      ∧ (process_received cfgHundredsOnly rowsFlushTest []).dropped
          = (add_all [] rowsFlushTest cfgHundredsOnly.maxRecordsPerCycleBatch).1
      ∧ ∀ b ∈ (process_received cfgHundredsOnly rowsFlushTest []).dropped,
          b.1 ∉ ((process_received cfgHundredsOnly rowsFlushTest []).dispatched.map
            Prod.fst)) :=
  ⟨by decide, flushed_iteration_drops_leftovers cfgHundredsOnly rowsFlushTest [] (by decide)⟩

end QuickStream
